import Mathlib

/-!
Verification of the `cache-mechanics` repository's TTL cache and staleness
harness, as a shallow embedding in Lean 4.

Embedding conventions:
- A Python `dict[str, ...]` is modelled as an association list with unique
  keys; `dictGet` mirrors `d[k]` / `k in d`, `dictInsert` mirrors
  `d[k] = v`, and `dictErase` mirrors `del d[k]`.
- The ambient clock `time.time()` is passed explicitly as a `now : Int`
  argument to the operations that read it.
- Values (`Any` in Python) are a type parameter `V`.
- Stateful methods return the pair of their Python return value and the
  updated cache state.
-/

/-- First-match lookup in an association list: `d[k]` / `d.get(k)`. -/
def dictGet {α : Type} (m : List (String × α)) (k : String) : Option α :=
  match m with
  | [] => none
  | (k₀, v₀) :: rest => if k₀ = k then some v₀ else dictGet rest k

/-- Assignment `d[k] = v`: replaces the entry for `k`, or appends it. -/
def dictInsert {α : Type} (m : List (String × α)) (k : String) (v : α) :
    List (String × α) :=
  match m with
  | [] => [(k, v)]
  | (k₀, v₀) :: rest =>
      if k₀ = k then (k, v) :: rest else (k₀, v₀) :: dictInsert rest k v

/-- Deletion `del d[k]`: removes the entry for `k` (no-op when absent). -/
def dictErase {α : Type} (m : List (String × α)) (k : String) :
    List (String × α) :=
  match m with
  | [] => []
  | (k₀, v₀) :: rest =>
      if k₀ = k then rest else (k₀, v₀) :: dictErase rest k

/-- Checked deletion: Python `del d[k]` raises `KeyError` when `k` is
absent; `none` models that failure. -/
def dictEraseChecked {α : Type} (m : List (String × α)) (k : String) :
    Option (List (String × α)) :=
  if (dictGet m k).isSome then some (dictErase m k) else none

/-- Checked indexing: Python `d[k]` raises `KeyError` when `k` is absent;
`none` models that failure. -/
def dictIndexChecked {α : Type} (m : List (String × α)) (k : String) :
    Option α :=
  dictGet m k

/-- The dict invariant every reachable Python dict satisfies: keys are
pairwise distinct. -/
def KeysDistinct {α : Type} (m : List (String × α)) : Prop :=
  (m.map Prod.fst).Nodup

/-- One cache slot: the Python dict `{"value": value, "expires_at": t}`
stored in `SimpleCache._cache`. -/
structure CacheEntry (V : Type) where
  value : V
  expires_at : Int
deriving DecidableEq, Repr

/-- State of `SimpleCache`: the mapping `_cache` plus `_default_ttl`. -/
structure SimpleCache (V : Type) where
  cache : List (String × CacheEntry V)
  default_ttl : Int
deriving DecidableEq, Repr

namespace SimpleCache

/-- `SimpleCache.__init__(default_ttl)`. -/
def init (V : Type) (default_ttl : Int) : SimpleCache V :=
  { cache := [], default_ttl := default_ttl }

/-- `SimpleCache.__contains__`: raw-mapping membership, not expiry-aware. -/
def contains {V : Type} (c : SimpleCache V) (key : String) : Bool :=
  (dictGet c.cache key).isSome

/-- `SimpleCache.set(key, value, ttl)`: stores the entry with
`expires_at = time.time() + (ttl if ttl is not None else default_ttl)`. -/
def set {V : Type} (c : SimpleCache V) (key : String) (value : V)
    (ttl : Option Int) (now : Int) : SimpleCache V :=
  { c with
    cache := dictInsert c.cache key
      { value := value, expires_at := now + ttl.getD c.default_ttl } }

/-- `SimpleCache.get(key)`: returns `None` on a raw miss; on a hit checks
`time.time() > entry["expires_at"]` and lazily deletes when strictly past
expiry; otherwise returns the stored value. The pair is (returned value,
cache state after the call). -/
def get {V : Type} (c : SimpleCache V) (key : String) (now : Int) :
    Option V × SimpleCache V :=
  match dictGet c.cache key with
  | none => (none, c)
  | some entry =>
      if now > entry.expires_at then
        (none, { c with cache := dictErase c.cache key })
      else
        (some entry.value, c)

/-- `SimpleCache.get` with its two fallible dict accesses (`self._cache[key]`
and `del self._cache[key]`) left checked: `none` would model an uncaught
`KeyError`. -/
def getChecked {V : Type} (c : SimpleCache V) (key : String) (now : Int) :
    Option (Option V × SimpleCache V) :=
  if c.contains key = false then
    some (none, c)
  else
    match dictIndexChecked c.cache key with
    | none => none
    | some entry =>
        if now > entry.expires_at then
          match dictEraseChecked c.cache key with
          | none => none
          | some m => some (none, { c with cache := m })
        else
          some (some entry.value, c)

/-- `SimpleCache.delete(key)`: removes the entry when present (expired or
not) and reports whether a removal occurred. -/
def delete {V : Type} (c : SimpleCache V) (key : String) :
    Bool × SimpleCache V :=
  if c.contains key then
    (true, { c with cache := dictErase c.cache key })
  else
    (false, c)

/-- `SimpleCache.delete` with its fallible `del self._cache[key]` left
checked. -/
def deleteChecked {V : Type} (c : SimpleCache V) (key : String) :
    Option (Bool × SimpleCache V) :=
  if c.contains key then
    match dictEraseChecked c.cache key with
    | none => none
    | some m => some (true, { c with cache := m })
  else
    some (false, c)

/-- `SimpleCache.clear()`: `self._cache.clear()`. -/
def clear {V : Type} (c : SimpleCache V) : SimpleCache V :=
  { c with cache := [] }

/-- `SimpleCache.__len__`: size of the raw mapping. -/
def size {V : Type} (c : SimpleCache V) : Nat :=
  c.cache.length

end SimpleCache

/-- One observable effect of the writer thread in `measure_staleness.py`:
the backing-store write of `version_i` or the cache set of `version_i`. -/
inductive WriterEvent where
  | storeWrite (i : Nat)
  | cacheSet (i : Nat)
deriving DecidableEq, Repr

/-- Timed event list produced by `writer_thread` starting at iteration `i`
at clock `t` with `m` iterations left: each iteration sleeps `write_delay`
inside `db.write` and mutates the store, sleeps `cache_update_delay`, sets
the cache, then sleeps the iteration's jitter. Delays are in milliseconds;
`jitter i` is the random `uniform(0.001, 0.005)` draw of iteration `i`. -/
def writerEventsFrom (write_delay cache_update_delay : Int)
    (jitter : Nat → Int) : Nat → Int → Nat → List (Int × WriterEvent)
  | _, _, 0 => []
  | i, t, Nat.succ m =>
      (t + write_delay, WriterEvent.storeWrite i) ::
      (t + write_delay + cache_update_delay, WriterEvent.cacheSet i) ::
      writerEventsFrom write_delay cache_update_delay jitter (i + 1)
        (t + write_delay + cache_update_delay + jitter i) m

/-- Full timed event list of `writer_thread(db, cache, key, num_updates,
write_delay, cache_update_delay)` with a given jitter sequence. -/
def writerEvents (write_delay cache_update_delay : Int)
    (jitter : Nat → Int) (num_updates : Nat) : List (Int × WriterEvent) :=
  writerEventsFrom write_delay cache_update_delay jitter 0 0 num_updates

/-- Concrete sample entry for instantiating the theorems. -/
def sampleEntry : CacheEntry Nat :=
  { value := 3, expires_at := 5 }

/-- Concrete one-entry sample cache: key "k" expiring at clock 5. -/
def sampleCache : SimpleCache Nat :=
  { cache := [("k", sampleEntry)], default_ttl := 60 }

/-- Concrete two-entry sample cache for the frame-property witnesses. -/
def samplePair : SimpleCache Nat :=
  { cache := [("a", { value := 1, expires_at := 5 }),
              ("b", { value := 2, expires_at := 9 })],
    default_ttl := 60 }

theorem dictGet_eq_none_of_not_mem {α : Type} (m : List (String × α))
    (k : String) (h : k ∉ m.map Prod.fst) : dictGet m k = none := by
  induction m with
  | nil => rfl
  | cons p rest ih =>
      obtain ⟨k₀, v₀⟩ := p
      simp only [List.map_cons, List.mem_cons] at h
      push_neg at h
      simp only [dictGet, if_neg (Ne.symm h.1)]
      exact ih h.2

theorem dictGet_dictInsert_self {α : Type} (m : List (String × α))
    (k : String) (v : α) : dictGet (dictInsert m k v) k = some v := by
  induction m with
  | nil => simp [dictInsert, dictGet]
  | cons p rest ih =>
      obtain ⟨k₀, v₀⟩ := p
      by_cases hk : k₀ = k
      · simp [dictInsert, dictGet, hk]
      · simp only [dictInsert, if_neg hk, dictGet, if_neg hk]
        exact ih

theorem dictGet_dictInsert_ne {α : Type} (m : List (String × α))
    (k k' : String) (v : α) (h : k' ≠ k) :
    dictGet (dictInsert m k v) k' = dictGet m k' := by
  induction m with
  | nil => simp [dictInsert, dictGet, Ne.symm h]
  | cons p rest ih =>
      obtain ⟨k₀, v₀⟩ := p
      by_cases hk : k₀ = k
      · rw [hk]
        simp [dictInsert, dictGet, Ne.symm h]
      · simp only [dictInsert, if_neg hk, dictGet]
        by_cases hk' : k₀ = k'
        · simp [hk']
        · simp only [if_neg hk']
          exact ih

theorem dictGet_dictErase_ne {α : Type} (m : List (String × α))
    (k k' : String) (h : k' ≠ k) :
    dictGet (dictErase m k) k' = dictGet m k' := by
  induction m with
  | nil => rfl
  | cons p rest ih =>
      obtain ⟨k₀, v₀⟩ := p
      by_cases hk : k₀ = k
      · rw [hk]
        simp [dictErase, dictGet, Ne.symm h]
      · simp only [dictErase, if_neg hk, dictGet]
        by_cases hk' : k₀ = k'
        · simp [hk']
        · simp only [if_neg hk']
          exact ih

theorem dictGet_dictErase_self {α : Type} (m : List (String × α))
    (k : String) (h : KeysDistinct m) : dictGet (dictErase m k) k = none := by
  induction m with
  | nil => rfl
  | cons p rest ih =>
      obtain ⟨k₀, v₀⟩ := p
      simp only [KeysDistinct, List.map_cons, List.nodup_cons] at h
      by_cases hk : k₀ = k
      · subst hk
        simp only [dictErase, if_pos rfl]
        exact dictGet_eq_none_of_not_mem rest k₀ h.1
      · simp only [dictErase, if_neg hk, dictGet, if_neg hk]
        exact ih h.2

theorem dictErase_length {α : Type} (m : List (String × α)) (k : String)
    (h : (dictGet m k).isSome) : (dictErase m k).length + 1 = m.length := by
  induction m with
  | nil => simp [dictGet] at h
  | cons p rest ih =>
      obtain ⟨k₀, v₀⟩ := p
      by_cases hk : k₀ = k
      · simp [dictErase, hk]
      · simp only [dictGet, if_neg hk] at h
        simp only [dictErase, if_neg hk, List.length_cons]
        rw [← ih h]

theorem writerEventsFrom_spec (wd cd : Int) (jitter : Nat → Int) :
    ∀ (m i : Nat) (t : Int) (k : Nat), k < m →
    ∃ ts : Int,
      (writerEventsFrom wd cd jitter i t m)[2 * k]? =
        some (ts, WriterEvent.storeWrite (i + k)) ∧
      (writerEventsFrom wd cd jitter i t m)[2 * k + 1]? =
        some (ts + cd, WriterEvent.cacheSet (i + k)) := by
  intro m
  induction m with
  | zero => intro i t k hk; omega
  | succ m ih =>
      intro i t k hk
      cases k with
      | zero =>
          refine ⟨t + wd, ?_, ?_⟩ <;> simp [writerEventsFrom]
      | succ j =>
          have hj : j < m := by omega
          obtain ⟨ts, h1, h2⟩ := ih (i + 1) (t + wd + cd + jitter i) j hj
          have hidx : i + (j + 1) = (i + 1) + j := by omega
          refine ⟨ts, ?_, ?_⟩
          · have e : 2 * (j + 1) = 2 * j + 1 + 1 := by ring
            rw [e, hidx]
            simpa [writerEventsFrom] using h1
          · have e : 2 * (j + 1) + 1 = (2 * j + 1) + 1 + 1 := by ring
            rw [e, hidx]
            simpa [writerEventsFrom] using h2

/-- Claim C6: in every writer iteration `k` of `num_updates`, the
backing-store write of `version_k` occurs at a strictly earlier trace
position than the cache set of `version_k`, and the cache set happens
exactly `cache_update_delay` after the store write; with a nonnegative
propagation delay the cache set never happens before its store write. -/
theorem writer_store_write_precedes_cache_set (wd cd : Int)
    (jitter : Nat → Int) (n k : Nat) (hk : k < n) (hcd : 0 ≤ cd) :
    ∃ (a b : Nat) (ts tc : Int), a < b ∧
      (writerEvents wd cd jitter n)[a]? = some (ts, WriterEvent.storeWrite k) ∧
      (writerEvents wd cd jitter n)[b]? = some (tc, WriterEvent.cacheSet k) ∧
      tc = ts + cd ∧ ts ≤ tc := by
  obtain ⟨ts, h1, h2⟩ := writerEventsFrom_spec wd cd jitter n 0 0 k hk
  refine ⟨2 * k, 2 * k + 1, ts, ts + cd, by omega, ?_, ?_, rfl, by omega⟩
  · simpa [writerEvents] using h1
  · simpa [writerEvents] using h2

/-- Witness for C6 at the basic-scenario parameters: `write_delay` 10ms,
`cache_update_delay` 5ms, 100 updates, a constant 3ms jitter, iteration 0. -/
theorem writer_store_write_precedes_cache_set_witness :
    ∃ (a b : Nat) (ts tc : Int), a < b ∧
      (writerEvents 10 5 (fun _ => 3) 100)[a]? =
        some (ts, WriterEvent.storeWrite 0) ∧
      (writerEvents 10 5 (fun _ => 3) 100)[b]? =
        some (tc, WriterEvent.cacheSet 0) ∧
      tc = ts + 5 ∧ ts ≤ tc :=
  writer_store_write_precedes_cache_set 10 5 (fun _ => 3) 100 0 (by decide)
    (by decide)


/-- Claim C1 counterexample: `sampleCache` holds key "k" with
`expires_at = 5`; read at `now = 5` (so `expires_at <= now` holds, at the
boundary instant) the stored value is still returned and the entry kept,
because `get` tests the strict `time.time() > expires_at`, so an entry
with `expires_at <= now` is not always treated as a miss. -/
theorem boundary_expired_entry_returned_counterexample :
    dictGet sampleCache.cache "k" = some sampleEntry ∧
    sampleEntry.expires_at ≤ (5 : Int) ∧
    (sampleCache.get "k" 5).1 = some 3 ∧
    (sampleCache.get "k" 5).2.contains "k" = true := by
  decide

/-- Claim C1 (amended): a key present in the mapping with
`expires_at < now` (strictly past expiry) is logically absent: the next
`get` treats it as a miss (returns `none`) and physically removes the
entry; at the boundary instant `expires_at == now` the entry is still
live and its value is returned. -/
theorem strictly_expired_entry_is_miss_and_purged {V : Type}
    (c : SimpleCache V) (key : String) (now : Int) (e : CacheEntry V)
    (hwf : KeysDistinct c.cache) (he : dictGet c.cache key = some e)
    (hexp : e.expires_at < now) :
    (c.get key now).1 = none ∧ (c.get key now).2.contains key = false := by
  have hgt : now > e.expires_at := hexp
  simp [SimpleCache.get, he, hgt, SimpleCache.contains,
    dictGet_dictErase_self _ _ hwf]

/-- Witness for the amended C1: key "k" of `sampleCache` read at `now = 6`
is missed and purged. -/
theorem strictly_expired_entry_is_miss_and_purged_witness :
    (sampleCache.get "k" 6).1 = none ∧
    (sampleCache.get "k" 6).2.contains "k" = false :=
  strictly_expired_entry_is_miss_and_purged sampleCache "k" 6 sampleEntry
    (by unfold KeysDistinct sampleCache; decide) (by decide) (by decide)

/-- Claim C2: `get key` returns `none` when the key is absent from the
mapping; when present with `now > expires_at` it returns `none` and, as a
side effect, the entry is deleted from the mapping before `none` is
returned (the new mapping is exactly the old one with the key erased, so
the key is gone); otherwise it returns exactly the stored value and leaves
the state unchanged. -/
theorem get_characterization {V : Type} (c : SimpleCache V) (key : String)
    (now : Int) (hwf : KeysDistinct c.cache) :
    (dictGet c.cache key = none → c.get key now = (none, c)) ∧
    (∀ e : CacheEntry V, dictGet c.cache key = some e → now > e.expires_at →
      (c.get key now).1 = none ∧
      (c.get key now).2.cache = dictErase c.cache key ∧
      dictGet (c.get key now).2.cache key = none) ∧
    (∀ e : CacheEntry V, dictGet c.cache key = some e → ¬ now > e.expires_at →
      c.get key now = (some e.value, c)) := by
  refine ⟨?_, ?_, ?_⟩
  · intro h
    simp [SimpleCache.get, h]
  · intro e he hexp
    simp [SimpleCache.get, he, hexp, dictGet_dictErase_self _ _ hwf]
  · intro e he hexp
    simp [SimpleCache.get, he, if_neg hexp]

/-- Witness for C2, exercising the expired-deletion case: key "k" of
`sampleCache` read at `now = 10` yields `none` and the erased mapping. -/
theorem get_characterization_witness :
    (sampleCache.get "k" 10).1 = none ∧
    (sampleCache.get "k" 10).2.cache = dictErase sampleCache.cache "k" ∧
    dictGet (sampleCache.get "k" 10).2.cache "k" = none :=
  (get_characterization sampleCache "k" 10
      (by unfold KeysDistinct sampleCache; decide)).2.1
    sampleEntry (by decide) (by decide)

/-- Claim C3: an expired-but-unpurged key (present in the mapping with
`now` strictly past its `expires_at`) still satisfies `contains = true`
and is counted by `size`, while `get` on it returns `none`; only after
that `get` has run does `contains` report `false`, and `size` drops by
exactly the purged entry — `contains` and `size` test raw mapping
membership and are not expiry-aware, diverging from `get`. -/
theorem expired_unpurged_contains_size_asymmetry {V : Type}
    (c : SimpleCache V) (key : String) (now : Int) (e : CacheEntry V)
    (hwf : KeysDistinct c.cache) (he : dictGet c.cache key = some e)
    (hexp : now > e.expires_at) :
    c.contains key = true ∧
    (c.get key now).1 = none ∧
    (c.get key now).2.contains key = false ∧
    (c.get key now).2.size + 1 = c.size := by
  have hsome : (dictGet c.cache key).isSome := by simp [he]
  refine ⟨by simp [SimpleCache.contains, he], ?_, ?_, ?_⟩
  · simp [SimpleCache.get, he, hexp]
  · simp [SimpleCache.get, he, hexp, SimpleCache.contains,
      dictGet_dictErase_self _ _ hwf]
  · simp only [SimpleCache.get, he, if_pos hexp, SimpleCache.size]
    exact dictErase_length _ _ hsome

/-- Witness for C3: the entry of `sampleCache` at `now = 7` is visible to
`contains`/`size` before the `get`, invisible afterwards. -/
theorem expired_unpurged_contains_size_asymmetry_witness :
    sampleCache.contains "k" = true ∧
    (sampleCache.get "k" 7).1 = none ∧
    (sampleCache.get "k" 7).2.contains "k" = false ∧
    (sampleCache.get "k" 7).2.size + 1 = sampleCache.size :=
  expired_unpurged_contains_size_asymmetry sampleCache "k" 7 sampleEntry
    (by unfold KeysDistinct sampleCache; decide) (by decide) (by decide)

/-- Claim C4: `set key value ttl` inserts or fully replaces the entry for
`key` with `expires_at = now + (ttl if given else default_ttl)` and no
other state change to the default TTL; when the effective TTL is positive
an immediately following `get` (same clock) returns `some value`. -/
theorem set_stores_entry_and_immediate_get {V : Type} (c : SimpleCache V)
    (key : String) (value : V) (ttl : Option Int) (now : Int) :
    dictGet (c.set key value ttl now).cache key =
      some { value := value, expires_at := now + ttl.getD c.default_ttl } ∧
    (c.set key value ttl now).default_ttl = c.default_ttl ∧
    (0 < ttl.getD c.default_ttl →
      ((c.set key value ttl now).get key now).1 = some value) := by
  refine ⟨dictGet_dictInsert_self _ _ _, rfl, ?_⟩
  intro hpos
  have hg := dictGet_dictInsert_self c.cache key
    { value := value, expires_at := now + ttl.getD c.default_ttl }
  have hlive : ¬ now > now + ttl.getD c.default_ttl := by omega
  simp [SimpleCache.set, SimpleCache.get, hg, hlive]

/-- Witness for C4: setting "s" with the default TTL of 60 on
`sampleCache` at clock 0 stores expiry 60 and reads back the value. -/
theorem set_stores_entry_and_immediate_get_witness :
    dictGet (sampleCache.set "s" 9 none 0).cache "s" = some { value := 9, expires_at := 60 } ∧
    (sampleCache.set "s" 9 none 0).default_ttl = sampleCache.default_ttl ∧
    ((sampleCache.set "s" 9 none 0).get "s" 0).1 = some 9 := by
  have h := set_stores_entry_and_immediate_get sampleCache "s" 9 none 0
  exact ⟨h.1, h.2.1, h.2.2 (by decide)⟩

/-- Claim C5: `delete key` returns `true` exactly when the key was present
in the raw mapping before the call (expired or not); in that case the
entry is removed, so a later `get` at any clock returns `none` and
`contains` is `false`; when the key is absent it returns `false` and
leaves the cache unchanged. -/
theorem delete_iff_present {V : Type} (c : SimpleCache V) (key : String)
    (hwf : KeysDistinct c.cache) :
    ((c.delete key).1 = true ↔ c.contains key = true) ∧
    (c.contains key = true →
      (∀ now : Int, ((c.delete key).2.get key now).1 = none) ∧
      (c.delete key).2.contains key = false) ∧
    (c.contains key = false → (c.delete key).2 = c) := by
  by_cases hc : c.contains key
  · have hsome : (dictGet c.cache key).isSome = true := hc
    have hnone : dictGet (dictErase c.cache key) key = none :=
      dictGet_dictErase_self _ _ hwf
    refine ⟨by simp [SimpleCache.delete, hc], ?_, by simp [hc]⟩
    intro _
    constructor
    · intro now
      simp [SimpleCache.delete, SimpleCache.contains, hsome,
        SimpleCache.get, hnone]
    · simp [SimpleCache.delete, SimpleCache.contains, hsome, hnone]
  · have hc' : c.contains key = false := by simpa using hc
    refine ⟨by simp [SimpleCache.delete, hc'], by simp [hc'], ?_⟩
    intro _
    simp [SimpleCache.delete, hc']

/-- Witness for C5 on `sampleCache`: deleting the present key "k" reports
`true` and a later `get` misses; instantiated at clock 0. -/
theorem delete_iff_present_witness :
    ((sampleCache.delete "k").1 = true ↔ sampleCache.contains "k" = true) ∧
    ((sampleCache.delete "k").2.get "k" 0).1 = none ∧
    (sampleCache.delete "k").2.contains "k" = false := by
  have h := delete_iff_present sampleCache "k"
    (by unfold KeysDistinct sampleCache; decide)
  have h2 := h.2.1 (by decide)
  exact ⟨h.1, h2.1 0, h2.2⟩

/-- Claim C8: `clear` removes all entries unconditionally: for every prior
cache state, immediately after `clear` the size is 0 and `get` at any key
and any clock is a miss that makes no further state change. -/
theorem clear_empties_cache {V : Type} (c : SimpleCache V) :
    c.clear.size = 0 ∧
    (∀ (key : String) (now : Int), c.clear.get key now = (none, c.clear)) := by
  constructor
  · rfl
  · intro key now
    simp [SimpleCache.clear, SimpleCache.get, dictGet]

/-- Claim C9: every operation is total over its domain: the variants of
`get` and `delete` whose dict indexing and `del` are left fallible (a
`KeyError` would surface as `none`) always succeed, returning exactly the
unchecked results, and on a missing key `get` yields `none` and `delete`
yields `false` rather than failing — `get`'s map indexing is reached only
when the key is present. -/
theorem operations_total {V : Type} (c : SimpleCache V) (key : String)
    (now : Int) :
    c.getChecked key now = some (c.get key now) ∧
    c.deleteChecked key = some (c.delete key) ∧
    (c.contains key = false →
      (c.get key now).1 = none ∧ (c.delete key).1 = false) := by
  cases hd : dictGet c.cache key with
  | none =>
      have hc : c.contains key = false := by
        simp [SimpleCache.contains, hd]
      refine ⟨?_, ?_, fun _ => ⟨?_, ?_⟩⟩ <;>
        simp [SimpleCache.getChecked, SimpleCache.get,
          SimpleCache.deleteChecked, SimpleCache.delete, hc, hd]
  | some e =>
      have hc : c.contains key = true := by
        simp [SimpleCache.contains, hd]
      have hic : dictIndexChecked c.cache key = some e := hd
      have hec : dictEraseChecked c.cache key =
          some (dictErase c.cache key) := by
        simp [dictEraseChecked, hd]
      by_cases hexp : now > e.expires_at <;>
        simp [SimpleCache.getChecked, SimpleCache.get,
          SimpleCache.deleteChecked, SimpleCache.delete, hc, hd, hic, hec,
          hexp]

/-- Witness for C9 at the empty cache: a missing key is a `none`/`false`
result, not a failure. -/
theorem operations_total_witness :
    ((SimpleCache.init Nat 60).get "k" 0).1 = none ∧
    ((SimpleCache.init Nat 60).delete "k").1 = false :=
  (operations_total (SimpleCache.init Nat 60) "k" 0).2.2 (by decide)

/-- Claim C10: every per-key operation affects at most the named key's entry:
for every other key the stored entry is unchanged by `set`, `delete` and
`get` on `key`; moreover `get` leaves the entire cache state unchanged
unless `key` is present and strictly expired (the only case in which it
deletes, and then only the named key's entry). -/
theorem per_key_frame {V : Type} (c : SimpleCache V) (key k' : String)
    (value : V) (ttl : Option Int) (now : Int) (h : k' ≠ key) :
    dictGet (c.set key value ttl now).cache k' = dictGet c.cache k' ∧
    dictGet (c.delete key).2.cache k' = dictGet c.cache k' ∧
    dictGet (c.get key now).2.cache k' = dictGet c.cache k' ∧
    ((∀ e : CacheEntry V, dictGet c.cache key = some e →
        ¬ now > e.expires_at) →
      (c.get key now).2 = c) := by
  refine ⟨dictGet_dictInsert_ne _ _ _ _ h, ?_, ?_, ?_⟩
  · by_cases hc : c.contains key
    · simp [SimpleCache.delete, hc, dictGet_dictErase_ne _ _ _ h]
    · simp [SimpleCache.delete, hc]
  · cases hd : dictGet c.cache key with
    | none => simp [SimpleCache.get, hd]
    | some e =>
        by_cases hexp : now > e.expires_at
        · simp [SimpleCache.get, hd, hexp, dictGet_dictErase_ne _ _ _ h]
        · simp [SimpleCache.get, hd, hexp]
  · intro hlive
    cases hd : dictGet c.cache key with
    | none => simp [SimpleCache.get, hd]
    | some e => simp [SimpleCache.get, hd, hlive e hd]

/-- Witness for C10 on the two-entry `samplePair`: operations on key "b"
leave the entry of key "a" untouched, and a live `get` changes nothing. -/
theorem per_key_frame_witness :
    dictGet (samplePair.set "b" 7 none 0).cache "a" =
      dictGet samplePair.cache "a" ∧
    dictGet (samplePair.delete "b").2.cache "a" =
      dictGet samplePair.cache "a" ∧
    dictGet (samplePair.get "b" 0).2.cache "a" =
      dictGet samplePair.cache "a" :=
  have h := per_key_frame samplePair "b" "a" 7 none 0 (by decide)
  ⟨h.1, h.2.1, h.2.2.1⟩
